import Mathlib

/-!
Shallow embedding of `lib/ansible/modules/cloud/ovirt/ovirt_affinity_labels.py`.

The module reconciles oVirt affinity-label assignments: given a desired state
(label name, optional cluster scope, optional lists of VM / host names) it
diffs the desired name lists against the label's current assignments and
issues add / remove calls.  The remote side is modelled as a `World`: the
database of entities of one kind (VMs or hosts, each with id, name and
cluster name) together with the list of entity ids currently assigned to the
label.  Remote reads (`follow_link`, `objs_service.service(id).get()`,
`objs_service.list(search=...)`) become pure lookups on the `World`; remote
writes (assignment add / remove) become updates of the `assigned` list, and
the ids they were issued for are recorded so that dry-run claims can talk
about which mutating calls happened.
-/

namespace AffinityLabels

/-- One remote assignable entity (a VM or a host): its id, its display name
and the name of the cluster it resides in (`follow_link(entity.cluster).name`
in the source is flattened into the `ecluster` field). -/
structure Entity where
  eid : String
  ename : String
  ecluster : String
deriving DecidableEq, Repr

/-- Remote state of one kind (`vms` or `hosts`): the database of all entities
of that kind and the ids currently assigned to the affinity label
(`connection.follow_link(getattr(entity, name))`). -/
structure World where
  entities : List Entity
  assigned : List String
deriving DecidableEq, Repr

/-- `objs_service.service(i).get()`: resolve an id to its full entity record.
A dangling id makes the remote call fail, hence `Option`. -/
def getEntity (es : List Entity) (i : String) : Option Entity :=
  es.find? (fun e => e.eid == i)

/-- The cluster test of lines 133-135: with no `cluster` parameter every
entity passes; otherwise the entity's cluster name must equal the parameter. -/
def clusterMatches (c : Option String) (e : Entity) : Bool :=
  match c with
  | none => true
  | some cl => e.ecluster == cl

/-- How the `cluster` parameter is rendered into the search string of line
141: Python's `'%s' % None` prints the literal `None`, so an absent cluster
parameter searches for a cluster literally named "None". -/
def clusterStrParam : Option String → String
  | some cl => cl
  | none => "None"

/-- `objs_service.list(search='name=%s and cluster=%s' % (obj, cluster))`:
all entities whose name and cluster match the search string. -/
def searchNameCluster (es : List Entity) (n : String) (c : Option String) : List Entity :=
  es.filter (fun e => e.ename == n && e.ecluster == clusterStrParam c)

/-- `objs_names[labeled_entity.name].append(obj.id)` on a
`defaultdict(list)`: append `i` to the entry of key `n`, creating the entry
at the end when the key is new (Python dicts preserve insertion order). -/
def insertName (acc : List (String × List String)) (n : String) (i : String) :
    List (String × List String) :=
  match acc with
  | [] => [(n, [i])]
  | (m, l) :: rest =>
    if m = n then (m, l ++ [i]) :: rest else (m, l) :: insertName rest n i

/-- `obj in objs_names`: key membership in the grouped-names dict. -/
def hasKey (ons : List (String × List String)) (n : String) : Bool :=
  ons.any (fun p => p.1 == n)

/-- `objs_names[n]`: the id list grouped under key `n` (empty when absent;
first-match lookup, which agrees with dict lookup since keys are unique). -/
def findIds : List (String × List String) → String → List String
  | [], _ => []
  | p :: rest, n => if p.1 = n then p.2 else findIds rest n

/-- The loop of lines 131-136: walk the currently assigned ids, fetch each
entity, and group the cluster-matching ones by display name.  A failing
`get()` aborts the whole run (`none`). -/
def buildObjsNames (es : List Entity) (c : Option String) :
    List String → List (String × List String) → Option (List (String × List String))
  | [], acc => some acc
  | i :: rest, acc =>
    match getEntity es i with
    | none => none
    | some e =>
      buildObjsNames es c rest (if clusterMatches c e then insertName acc e.ename i else acc)

/-- The inner loop of lines 140-148 for one missing desired name: for every
search result issue an add call (`label_service.add(...)`, skipped in check
mode) and set the changed flag.  Returns the updated world, the ids an add
call was actually issued for, and the flag contribution. -/
def addEntities (w : World) (cm : Bool) : List Entity → World × List String × Bool
  | [] => (w, [], false)
  | e :: rest =>
    let w1 := if cm then w else { w with assigned := w.assigned ++ [e.eid] }
    let (w2, calls, _ch) := addEntities w1 cm rest
    (w2, (if cm then calls else e.eid :: calls), true)

/-- The loop of lines 138-148: for every desired name not among the grouped
current names, add every entity found by the name+cluster search. -/
def addPhase (w : World) (ons : List (String × List String)) (c : Option String) (cm : Bool) :
    List String → World × List String × Bool
  | [] => (w, [], false)
  | n :: rest =>
    if hasKey ons n then
      addPhase w ons c cm rest
    else
      let (w1, calls1, ch1) := addEntities w cm (searchNameCluster w.entities n c)
      let (w2, calls2, ch2) := addPhase w1 ons c cm rest
      (w2, calls1 ++ calls2, ch1 || ch2)

/-- `label_service.service(obj_id).remove()` for each grouped id: drop the
ids from the assigned list one after the other. -/
def removeIds (w : World) : List String → World
  | [] => w
  | i :: rest => removeIds { w with assigned := w.assigned.filter (fun j => j != i) } rest

/-- The loop of lines 150-156: for every grouped current name not in the
desired list, remove every id grouped under it (skipped in check mode) and
set the changed flag. -/
def removePhase (w : World) (ds : List String) (cm : Bool) :
    List (String × List String) → World × List String × Bool
  | [] => (w, [], false)
  | (m, ids) :: rest =>
    if m ∈ ds then
      removePhase w ds cm rest
    else
      let w1 := if cm then w else removeIds w ids
      let (w2, calls2, _ch2) := removePhase w1 ds cm rest
      (w2, (if cm then [] else ids) ++ calls2, true)

/-- Result of one `_update_label_assignments` pass: the world after the pass,
the changed-flag contribution, and the ids mutating add / remove calls were
issued for. -/
structure SyncOut where
  world : World
  changed : Bool
  adds : List String
  removes : List String
deriving DecidableEq, Repr

/-- `_update_label_assignments` (lines 126-156) for one kind.  When the
desired list parameter is `None` (line 128) the body is skipped entirely. -/
def syncAssignments (w : World) (desired : Option (List String)) (c : Option String)
    (cm : Bool) : Option SyncOut :=
  match desired with
  | none => some ⟨w, false, [], []⟩
  | some ds =>
    match buildObjsNames w.entities c w.assigned [] with
    | none => none
    | some ons =>
      let (w1, adds, ch1) := addPhase w ons c cm ds
      let (w2, removes, ch2) := removePhase w1 ds cm ons
      some ⟨w2, ch1 || ch2, adds, removes⟩

/-- The two per-kind remote states of one affinity label. -/
structure LabelState where
  vmsWorld : World
  hostsWorld : World
deriving DecidableEq, Repr

/-- The module parameters relevant to assignment reconciliation. -/
structure Params where
  vms : Option (List String)
  hosts : Option (List String)
  cluster : Option String
deriving DecidableEq, Repr

/-- Result of `update_check`: the label state after both passes, the combined
changed flag, and the per-kind mutating calls. -/
structure CheckOut where
  state : LabelState
  changed : Bool
  vmAdds : List String
  vmRemoves : List String
  hostAdds : List String
  hostRemoves : List String
deriving DecidableEq, Repr

/-- `update_check` (lines 158-161): run the assignment sync for `vms`, then
for `hosts`; the module's changed flag is the disjunction of the two
contributions. -/
def update_check (p : Params) (cm : Bool) (st : LabelState) : Option CheckOut :=
  match syncAssignments st.vmsWorld p.vms p.cluster cm with
  | none => none
  | some o1 =>
    match syncAssignments st.hostsWorld p.hosts p.cluster cm with
    | none => none
    | some o2 =>
      some ⟨⟨o1.world, o2.world⟩, o1.changed || o2.changed,
            o1.adds, o1.removes, o2.adds, o2.removes⟩

/-- Result of the state=absent path: the reported changed flag, the label
after the run (`none` = deleted), and the remove calls issued per kind. -/
structure AbsentOut where
  changed : Bool
  label : Option LabelState
  vmRemoves : List String
  hostRemoves : List String
deriving DecidableEq, Repr

/-- Modelled from the spec: `BaseModule.remove` lives in
`ansible.module_utils.ovirt`, which is not part of this source tree.  Per the
spec it looks the label up by name; when absent it returns changed=false
without touching anything; when present it calls the module's `pre_remove`
hook and then deletes the label (deletion skipped in check mode), returning
changed=true.  `pre_remove` (lines 121-124 of the source) overwrites the
`vms` and `hosts` parameters with empty lists — leaving the `cluster`
parameter as the caller passed it — and runs `update_check`. -/
def ensureAbsent (label : Option LabelState) (cluster : Option String) (cm : Bool) :
    Option AbsentOut :=
  match label with
  | none => some ⟨false, none, [], []⟩
  | some st =>
    match update_check ⟨some [], some [], cluster⟩ cm st with
    | none => none
    | some r => some ⟨true, if cm then some r.state else none, r.vmRemoves, r.hostRemoves⟩

/-- Events of one execution of `main` (lines 164-203), in order. -/
inductive Ev where
  | rejected
  | sdkFail
  | connectAttempt
  | exitJson
  | failJson
  | close
  | nameError
deriving DecidableEq, Repr

/-- The Python local variable `connection` of line 185: bound only when
`create_connection` returned normally, unbound otherwise. -/
def connVar (createOk : Bool) : Option Unit :=
  if createOk then some () else none

/-- The `finally` clause of lines 202-203: `connection.close(logout=False)`.
When the local variable is unbound (creation raised before the assignment
completed) the clause itself raises `NameError` and no close happens. -/
def finallyEvents : Option Unit → List Ev
  | some _ => [Ev.close]
  | none => [Ev.nameError]

/-- `main` (lines 164-203) as its sequence of observable events.  Modelled
from the spec where the framework is involved: `AnsibleModule`'s
`required_if=[('state', 'present', ['cluster'])]` enforcement and
`check_sdk` live outside this source tree; per the spec an invocation with
state=present and no cluster is rejected before any remote call begins, and a
missing SDK is reported before any remote call is attempted.  The try /
except / finally structure and its ordering are taken from the source:
`exit_json` raises `SystemExit`, which `except Exception` does not catch, so
the `finally` clause runs on every path through the try block. -/
def mainEvents (state : String) (cluster : Option String) (sdkOk createOk bodyOk : Bool) :
    List Ev :=
  if state == "present" && cluster.isNone then [Ev.rejected]
  else if !sdkOk then [Ev.sdkFail]
  else
    Ev.connectAttempt ::
      ((if createOk then (if bodyOk then [Ev.exitJson] else [Ev.failJson]) else [Ev.failJson])
        ++ finallyEvents (connVar createOk))

/-- The display names of the entities currently assigned to the label that
match the cluster filter — the observable the spec's set-equality property
talks about. -/
def matchedNames (w : World) (c : Option String) : List String :=
  w.assigned.filterMap (fun i =>
    match getEntity w.entities i with
    | some e => if clusterMatches c e then some e.ename else none
    | none => none)

/-- The assigned ids whose entity resolves and matches the cluster filter. -/
def matchedIds (w : World) (c : Option String) : List String :=
  w.assigned.filter (fun i =>
    match getEntity w.entities i with
    | some e => clusterMatches c e
    | none => false)

/-- The ids the add loop of lines 138-148 issues add calls for: for each
desired name with no current cluster-matching assignment, every id returned
by the name+cluster search. -/
def plannedAddIds (es : List Entity) (ons : List (String × List String)) (c : Option String)
    (ds : List String) : List String :=
  ds.flatMap (fun n => if hasKey ons n then [] else (searchNameCluster es n c).map Entity.eid)

/-- The ids the remove loop of lines 150-156 issues remove calls for: for
each grouped current name not in the desired list, every id grouped under
that name. -/
def plannedRemoveIds (ons : List (String × List String)) (ds : List String) : List String :=
  ons.flatMap (fun p => if p.1 ∈ ds then [] else p.2)

/-! ## Basic lemmas about the grouped-names dictionary -/

theorem isEmpty_append {α : Type} (a b : List α) :
    (a ++ b).isEmpty = (a.isEmpty && b.isEmpty) := by
  cases a <;> simp

theorem findIds_insertName (acc : List (String × List String)) (n j m : String) :
    findIds (insertName acc n j) m =
      if m = n then findIds acc m ++ [j] else findIds acc m := by
  induction acc with
  | nil =>
    by_cases h : m = n
    · subst h; simp [insertName, findIds]
    · simp [insertName, findIds, h, Ne.symm h]
  | cons p rest ih =>
    obtain ⟨k, l⟩ := p
    by_cases hk : k = n
    · subst hk
      by_cases hm : k = m
      · subst hm; simp [insertName, findIds]
      · simp [insertName, findIds, hm, Ne.symm hm]
    · by_cases hm : k = m
      · subst hm
        have hmn : ¬ k = n := hk
        simp [insertName, findIds, hk, Ne.symm hk]
      · simp [insertName, findIds, hk, hm, ih]

theorem hasKey_iff (ons : List (String × List String)) (n : String) :
    hasKey ons n = true ↔ ∃ p ∈ ons, p.1 = n := by
  simp [hasKey, List.any_eq_true]

theorem hasKey_of_mem {ons : List (String × List String)} {p : String × List String}
    (hp : p ∈ ons) : hasKey ons p.1 = true :=
  (hasKey_iff ons p.1).2 ⟨p, hp, rfl⟩

theorem mem_keys_iff_hasKey (acc : List (String × List String)) (n : String) :
    n ∈ acc.map Prod.fst ↔ hasKey acc n = true := by
  simp [hasKey, List.any_eq_true, List.mem_map]

theorem keys_insertName (acc : List (String × List String)) (n j : String) :
    (insertName acc n j).map Prod.fst =
      if hasKey acc n then acc.map Prod.fst else acc.map Prod.fst ++ [n] := by
  induction acc with
  | nil => simp [insertName, hasKey]
  | cons p rest ih =>
    obtain ⟨k, l⟩ := p
    by_cases hk : k = n
    · have hh : hasKey ((k, l) :: rest) n = true := by simp [hasKey, hk]
      rw [hh, if_pos rfl]
      simp [insertName, hk]
    · have hh : hasKey ((k, l) :: rest) n = hasKey rest n := by simp [hasKey, hk]
      rw [hh]
      by_cases h2 : hasKey rest n
      · rw [if_pos h2]
        simp [insertName, hk, ih, h2]
      · rw [if_neg h2]
        simp [insertName, hk, ih, h2]

theorem hasKey_insertName (acc : List (String × List String)) (n j m : String) :
    hasKey (insertName acc n j) m = true ↔ m = n ∨ hasKey acc m = true := by
  constructor
  · intro h
    have hm := (mem_keys_iff_hasKey _ m).2 h
    rw [keys_insertName] at hm
    by_cases hk : hasKey acc n
    · rw [if_pos hk] at hm
      exact Or.inr ((mem_keys_iff_hasKey acc m).1 hm)
    · rw [if_neg hk] at hm
      rcases List.mem_append.1 hm with hm | hm
      · exact Or.inr ((mem_keys_iff_hasKey acc m).1 hm)
      · simp at hm; exact Or.inl hm
  · intro h
    apply (mem_keys_iff_hasKey _ m).1
    rw [keys_insertName]
    by_cases hk : hasKey acc n
    · rw [if_pos hk]
      rcases h with rfl | hm
      · exact (mem_keys_iff_hasKey acc m).2 hk
      · exact (mem_keys_iff_hasKey acc m).2 hm
    · rw [if_neg hk]
      rcases h with rfl | hm
      · exact List.mem_append.2 (Or.inr (by simp))
      · exact List.mem_append.2 (Or.inl ((mem_keys_iff_hasKey acc m).2 hm))

theorem valsNonempty_insertName {acc : List (String × List String)} (n j : String)
    (h : ∀ p ∈ acc, p.2 ≠ []) : ∀ p ∈ insertName acc n j, p.2 ≠ [] := by
  induction acc with
  | nil => simp [insertName]
  | cons q rest ih =>
    obtain ⟨k, l⟩ := q
    intro p hp
    by_cases hk : k = n
    · simp [insertName, hk] at hp
      rcases hp with rfl | hp
      · simp
      · exact h p (List.mem_cons_of_mem _ hp)
    · simp [insertName, hk] at hp
      rcases hp with rfl | hp
      · exact h (k, l) (List.mem_cons_self _ _)
      · exact ih (fun q hq => h q (List.mem_cons_of_mem _ hq)) p hp

theorem keysNodup_insertName {acc : List (String × List String)} (n j : String)
    (h : (acc.map Prod.fst).Nodup) : ((insertName acc n j).map Prod.fst).Nodup := by
  rw [keys_insertName]
  by_cases hk : hasKey acc n
  · rw [if_pos hk]; exact h
  · rw [if_neg hk]
    rw [List.nodup_append]
    refine ⟨h, List.nodup_singleton n, ?_⟩
    intro x hx hmem
    simp at hmem
    subst hmem
    exact hk ((mem_keys_iff_hasKey acc x).1 hx)

theorem pair_findIds {ons : List (String × List String)}
    (hnd : (ons.map Prod.fst).Nodup) {p : String × List String} (hp : p ∈ ons) :
    findIds ons p.1 = p.2 := by
  induction ons with
  | nil => cases hp
  | cons q rest ih =>
    rcases List.mem_cons.1 hp with rfl | hp'
    · simp [findIds]
    · have hq : ¬ q.1 = p.1 := by
        intro he
        have : q.1 ∈ rest.map Prod.fst := he ▸ List.mem_map.2 ⟨p, hp', rfl⟩
        exact (List.nodup_cons.1 hnd).1 this
      simp [findIds, hq]
      exact ih (List.nodup_cons.1 hnd).2 hp'

theorem hasKey_exists_pair {ons : List (String × List String)} {n : String}
    (h : hasKey ons n = true) : ∃ l, (n, l) ∈ ons ∧ findIds ons n = l := by
  induction ons with
  | nil => simp [hasKey] at h
  | cons p rest ih =>
    obtain ⟨k, l⟩ := p
    by_cases hk : k = n
    · subst hk
      exact ⟨l, List.mem_cons_self _ _, by simp [findIds]⟩
    · have h' : hasKey rest n = true := by
        rcases (hasKey_iff _ n).1 h with ⟨q, hq, hqn⟩
        rcases List.mem_cons.1 hq with rfl | hq'
        · exact absurd hqn hk
        · exact (hasKey_iff rest n).2 ⟨q, hq', hqn⟩
      obtain ⟨l', hl', hf⟩ := ih h'
      refine ⟨l', List.mem_cons_of_mem _ hl', ?_⟩
      simpa [findIds, hk] using hf

/-! ## Entity resolution and search -/

theorem getEntity_eq_some {es : List Entity} {i : String} {e : Entity}
    (h : getEntity es i = some e) : e ∈ es ∧ e.eid = i := by
  refine ⟨List.mem_of_find?_eq_some h, ?_⟩
  have := List.find?_some h
  simpa using this

theorem getEntity_of_mem {es : List Entity} (hnd : (es.map Entity.eid).Nodup)
    {e : Entity} (he : e ∈ es) : getEntity es e.eid = some e := by
  induction es with
  | nil => cases he
  | cons f rest ih =>
    rcases List.mem_cons.1 he with rfl | he'
    · simp [getEntity]
    · have hne : ¬ (f.eid == e.eid) = true := by
        simp only [beq_iff_eq]
        intro hc
        have : f.eid ∈ rest.map Entity.eid := hc ▸ List.mem_map.2 ⟨e, he', rfl⟩
        exact (List.nodup_cons.1 hnd).1 this
      have hskip : List.find? (fun x => x.eid == e.eid) (f :: rest) =
          List.find? (fun x => x.eid == e.eid) rest :=
        List.find?_cons_of_neg _ hne
      unfold getEntity
      rw [hskip]
      exact ih (List.nodup_cons.1 hnd).2 he'

theorem getEntity_isSome {es : List Entity} {i : String}
    (h : ∃ e ∈ es, e.eid = i) : (getEntity es i).isSome = true := by
  rw [getEntity, List.find?_isSome]
  obtain ⟨e, he, hi⟩ := h
  exact ⟨e, he, by simp [hi]⟩

theorem mem_searchNameCluster {es : List Entity} {n : String} {c : Option String}
    {e : Entity} :
    e ∈ searchNameCluster es n c ↔
      e ∈ es ∧ e.ename = n ∧ e.ecluster = clusterStrParam c := by
  simp [searchNameCluster, List.mem_filter, and_assoc]

theorem clusterMatches_of_mem_search {es : List Entity} {n : String} {c : Option String}
    {e : Entity} (h : e ∈ searchNameCluster es n c) : clusterMatches c e = true := by
  have := (mem_searchNameCluster.1 h).2.2
  cases c with
  | none => simp [clusterMatches]
  | some cl => simp [clusterMatches, clusterStrParam] at this ⊢; exact this

/-! ## Characterization of the grouped current names (lines 131-136) -/

/-- Id `i` is a currently assigned, cluster-matching entity with display
name `n`. -/
def matchPred (es : List Entity) (c : Option String) (i n : String) : Prop :=
  ∃ e, getEntity es i = some e ∧ clusterMatches c e = true ∧ e.ename = n

theorem matchPred_unique {es : List Entity} {c : Option String} {i n m : String}
    (h1 : matchPred es c i n) (h2 : matchPred es c i m) : n = m := by
  obtain ⟨e1, he1, -, hn⟩ := h1
  obtain ⟨e2, he2, -, hm⟩ := h2
  rw [he1] at he2
  cases he2
  rw [← hn, ← hm]

theorem buildObjsNames_some {es : List Entity} {c : Option String} :
    ∀ (A : List String) (acc : List (String × List String)),
      (∀ i ∈ A, (getEntity es i).isSome = true) →
      ∃ ons, buildObjsNames es c A acc = some ons := by
  intro A
  induction A with
  | nil => intro acc _; exact ⟨acc, rfl⟩
  | cons a rest ih =>
    intro acc h
    have ha := h a (List.mem_cons_self _ _)
    obtain ⟨e, he⟩ := Option.isSome_iff_exists.1 ha
    have hrest := fun i hi => h i (List.mem_cons_of_mem _ hi)
    obtain ⟨ons, hons⟩ :=
      ih (if clusterMatches c e then insertName acc e.ename a else acc) hrest
    exact ⟨ons, by simp [buildObjsNames, he, hons]⟩

theorem buildObjsNames_findIds {es : List Entity} {c : Option String} :
    ∀ (A : List String) (acc ons : List (String × List String)),
      buildObjsNames es c A acc = some ons →
      ∀ n i, i ∈ findIds ons n ↔ i ∈ findIds acc n ∨ (i ∈ A ∧ matchPred es c i n) := by
  intro A
  induction A with
  | nil =>
    intro acc ons h n i
    simp [buildObjsNames] at h
    subst h
    simp
  | cons a rest ih =>
    intro acc ons h n i
    cases hg : getEntity es a with
    | none => simp [buildObjsNames, hg] at h
    | some e =>
      simp only [buildObjsNames, hg] at h
      by_cases hc : clusterMatches c e
      · rw [if_pos hc] at h
        rw [ih _ _ h n i, findIds_insertName]
        constructor
        · rintro (hin | ⟨hir, hp⟩)
          · by_cases hne : n = e.ename
            · rw [if_pos hne] at hin
              rcases List.mem_append.1 hin with hin | hin
              · exact Or.inl hin
              · simp at hin
                subst hin
                exact Or.inr ⟨List.mem_cons_self _ _, e, hg, hc, hne.symm⟩
            · rw [if_neg hne] at hin
              exact Or.inl hin
          · exact Or.inr ⟨List.mem_cons_of_mem _ hir, hp⟩
        · rintro (hin | ⟨hia, hp⟩)
          · by_cases hne : n = e.ename
            · rw [if_pos hne]
              exact Or.inl (List.mem_append.2 (Or.inl hin))
            · rw [if_neg hne]
              exact Or.inl hin
          · rcases List.mem_cons.1 hia with rfl | hir
            · have hne : n = e.ename := by
                obtain ⟨e', he', -, hn'⟩ := hp
                rw [hg] at he'
                cases he'
                exact hn'.symm
              rw [if_pos hne]
              exact Or.inl (List.mem_append.2 (Or.inr (by simp)))
            · exact Or.inr ⟨hir, hp⟩
      · rw [if_neg hc] at h
        rw [ih _ _ h n i]
        constructor
        · rintro (hin | ⟨hir, hp⟩)
          · exact Or.inl hin
          · exact Or.inr ⟨List.mem_cons_of_mem _ hir, hp⟩
        · rintro (hin | ⟨hia, hp⟩)
          · exact Or.inl hin
          · rcases List.mem_cons.1 hia with rfl | hir
            · obtain ⟨e', he', hc', -⟩ := hp
              rw [hg] at he'
              cases he'
              exact absurd hc' hc
            · exact Or.inr ⟨hir, hp⟩

theorem buildObjsNames_hasKey {es : List Entity} {c : Option String} :
    ∀ (A : List String) (acc ons : List (String × List String)),
      buildObjsNames es c A acc = some ons →
      ∀ n, hasKey ons n = true ↔
        hasKey acc n = true ∨ ∃ i ∈ A, matchPred es c i n := by
  intro A
  induction A with
  | nil =>
    intro acc ons h n
    simp [buildObjsNames] at h
    subst h
    simp
  | cons a rest ih =>
    intro acc ons h n
    cases hg : getEntity es a with
    | none => simp [buildObjsNames, hg] at h
    | some e =>
      simp only [buildObjsNames, hg] at h
      by_cases hc : clusterMatches c e
      · rw [if_pos hc] at h
        rw [ih _ _ h n]
        rw [hasKey_insertName]
        constructor
        · rintro ((rfl | hk) | ⟨i, hir, hp⟩)
          · exact Or.inr ⟨a, List.mem_cons_self _ _, e, hg, hc, rfl⟩
          · exact Or.inl hk
          · exact Or.inr ⟨i, List.mem_cons_of_mem _ hir, hp⟩
        · rintro (hk | ⟨i, hia, hp⟩)
          · exact Or.inl (Or.inr hk)
          · rcases List.mem_cons.1 hia with rfl | hir
            · obtain ⟨e', he', -, hn'⟩ := hp
              rw [hg] at he'
              cases he'
              exact Or.inl (Or.inl hn'.symm)
            · exact Or.inr ⟨i, hir, hp⟩
      · rw [if_neg hc] at h
        rw [ih _ _ h n]
        constructor
        · rintro (hk | ⟨i, hir, hp⟩)
          · exact Or.inl hk
          · exact Or.inr ⟨i, List.mem_cons_of_mem _ hir, hp⟩
        · rintro (hk | ⟨i, hia, hp⟩)
          · exact Or.inl hk
          · rcases List.mem_cons.1 hia with rfl | hir
            · obtain ⟨e', he', hc', -⟩ := hp
              rw [hg] at he'
              cases he'
              exact absurd hc' hc
            · exact Or.inr ⟨i, hir, hp⟩

theorem buildObjsNames_keysNodup {es : List Entity} {c : Option String} :
    ∀ (A : List String) (acc ons : List (String × List String)),
      (acc.map Prod.fst).Nodup → buildObjsNames es c A acc = some ons →
      (ons.map Prod.fst).Nodup := by
  intro A
  induction A with
  | nil =>
    intro acc ons hnd h
    simp [buildObjsNames] at h
    subst h
    exact hnd
  | cons a rest ih =>
    intro acc ons hnd h
    cases hg : getEntity es a with
    | none => simp [buildObjsNames, hg] at h
    | some e =>
      simp only [buildObjsNames, hg] at h
      by_cases hc : clusterMatches c e
      · rw [if_pos hc] at h
        exact ih _ _ (keysNodup_insertName _ _ hnd) h
      · rw [if_neg hc] at h
        exact ih _ _ hnd h

theorem buildObjsNames_valsNonempty {es : List Entity} {c : Option String} :
    ∀ (A : List String) (acc ons : List (String × List String)),
      (∀ p ∈ acc, p.2 ≠ []) → buildObjsNames es c A acc = some ons →
      ∀ p ∈ ons, p.2 ≠ [] := by
  intro A
  induction A with
  | nil =>
    intro acc ons hne h
    simp [buildObjsNames] at h
    subst h
    exact hne
  | cons a rest ih =>
    intro acc ons hne h
    cases hg : getEntity es a with
    | none => simp [buildObjsNames, hg] at h
    | some e =>
      simp only [buildObjsNames, hg] at h
      by_cases hc : clusterMatches c e
      · rw [if_pos hc] at h
        exact ih _ _ (valsNonempty_insertName _ _ hne) h
      · rw [if_neg hc] at h
        exact ih _ _ hne h

/-! ## Closed forms of the add and remove phases -/

theorem contains_iff {l : List String} {a : String} : l.contains a = true ↔ a ∈ l := by
  simp [List.contains]

theorem isEmpty_map {α β : Type} (f : α → β) (l : List α) :
    (l.map f).isEmpty = l.isEmpty := by
  cases l <;> simp

theorem addEntities_eq (cm : Bool) (l : List Entity) (w : World) :
    addEntities w cm l =
      (⟨w.entities, if cm then w.assigned else w.assigned ++ l.map Entity.eid⟩,
       if cm then [] else l.map Entity.eid, !l.isEmpty) := by
  induction l generalizing w with
  | nil => cases cm <;> simp [addEntities]
  | cons e rest ih => cases cm <;> simp [addEntities, ih]

theorem addPhase_eq (ons : List (String × List String)) (c : Option String) (cm : Bool)
    (ds : List String) (w : World) :
    addPhase w ons c cm ds =
      (⟨w.entities, if cm then w.assigned else w.assigned ++ plannedAddIds w.entities ons c ds⟩,
       if cm then [] else plannedAddIds w.entities ons c ds,
       !(plannedAddIds w.entities ons c ds).isEmpty) := by
  induction ds generalizing w with
  | nil => cases cm <;> simp [addPhase, plannedAddIds]
  | cons n rest ih =>
    by_cases h : hasKey ons n
    · cases cm <;> simp [addPhase, h, plannedAddIds, List.flatMap_cons, ih]
    · cases cm <;>
        simp [addPhase, h, addEntities_eq, ih, plannedAddIds, List.flatMap_cons,
          isEmpty_append, isEmpty_map]

theorem removeIds_eq (ids : List String) (w : World) :
    removeIds w ids = ⟨w.entities, w.assigned.filter (fun j => !(ids.contains j))⟩ := by
  induction ids generalizing w with
  | nil => simp [removeIds]
  | cons i rest ih =>
    rw [removeIds, ih]
    have hf : (w.assigned.filter (fun j => j != i)).filter (fun j => !(rest.contains j)) =
        w.assigned.filter (fun j => !((i :: rest).contains j)) := by
      rw [List.filter_filter]
      apply List.filter_congr
      intro x _
      by_cases h1 : x = i <;> by_cases h2 : x ∈ rest <;>
        simp [h1, h2, List.contains, List.any_eq_true]
    simp only [hf]

theorem removePhase_eq (ds : List String) (cm : Bool)
    (ons : List (String × List String)) (w : World) :
    removePhase w ds cm ons =
      (⟨w.entities,
        if cm then w.assigned
        else w.assigned.filter (fun j => !((plannedRemoveIds ons ds).contains j))⟩,
       if cm then [] else plannedRemoveIds ons ds,
       ons.any (fun p => !(ds.contains p.1))) := by
  induction ons generalizing w with
  | nil =>
    cases cm <;> simp [removePhase, plannedRemoveIds, List.contains]
  | cons p rest ih =>
    obtain ⟨m, ids⟩ := p
    have hflat : plannedRemoveIds ((m, ids) :: rest) ds =
        (if m ∈ ds then [] else ids) ++ plannedRemoveIds rest ds := by
      simp [plannedRemoveIds, List.flatMap_cons]
    by_cases h : m ∈ ds
    · have hc : (ds.contains m) = true := contains_iff.2 h
      cases cm <;> simp [removePhase, h, hflat, hc, ih]
    · have hc : (ds.contains m) = false := by
        rw [← Bool.not_eq_true]
        intro hh
        exact h (contains_iff.1 hh)
      cases cm with
      | true => simp [removePhase, h, hflat, hc, ih]
      | false =>
        rw [removePhase]
        rw [if_neg h]
        simp only [Bool.false_eq_true, if_false, removeIds_eq, ih]
        have hfilt : ((w.assigned.filter (fun j => !(ids.contains j))).filter
              (fun j => !((plannedRemoveIds rest ds).contains j))) =
            w.assigned.filter
              (fun j => !((plannedRemoveIds ((m, ids) :: rest) ds).contains j)) := by
          rw [List.filter_filter]
          apply List.filter_congr
          intro x _
          rw [hflat, if_neg h]
          by_cases h1 : x ∈ ids <;> by_cases h2 : x ∈ plannedRemoveIds rest ds <;>
            simp [h1, h2, List.contains, List.any_eq_true, List.mem_append]
        simp [hfilt, hflat, h, hc, Bool.and_comm]

/-! ## Closed form of one `_update_label_assignments` pass -/

theorem syncAssignments_eq {w : World} {c : Option String}
    {ons : List (String × List String)} (ds : List String) (cm : Bool)
    (hb : buildObjsNames w.entities c w.assigned [] = some ons) :
    syncAssignments w (some ds) c cm =
      some ⟨⟨w.entities,
             if cm then w.assigned
             else (w.assigned ++ plannedAddIds w.entities ons c ds).filter
                    (fun j => !((plannedRemoveIds ons ds).contains j))⟩,
            (!(plannedAddIds w.entities ons c ds).isEmpty
              || ons.any (fun p => !(ds.contains p.1))),
            if cm then [] else plannedAddIds w.entities ons c ds,
            if cm then [] else plannedRemoveIds ons ds⟩ := by
  rw [syncAssignments, hb]
  cases cm <;> simp [addPhase_eq, removePhase_eq]

theorem syncAssignments_some_build {w : World} {ds : List String} {c : Option String}
    {cm : Bool} {out : SyncOut}
    (hs : syncAssignments w (some ds) c cm = some out) :
    ∃ ons, buildObjsNames w.entities c w.assigned [] = some ons := by
  rw [syncAssignments] at hs
  cases hb : buildObjsNames w.entities c w.assigned [] with
  | none => rw [hb] at hs; exact absurd hs (by simp)
  | some ons => exact ⟨ons, rfl⟩

/-! ## Membership in the planned add / remove call lists -/

theorem mem_plannedAddIds {es : List Entity} {ons : List (String × List String)}
    {c : Option String} {ds : List String} {i : String} :
    i ∈ plannedAddIds es ons c ds ↔
      ∃ n ∈ ds, hasKey ons n = false ∧ ∃ e ∈ searchNameCluster es n c, e.eid = i := by
  rw [plannedAddIds, List.mem_flatMap]
  constructor
  · rintro ⟨n, hn, hi⟩
    by_cases hk : hasKey ons n
    · rw [if_pos hk] at hi; cases hi
    · rw [if_neg hk] at hi
      obtain ⟨e, he, hei⟩ := List.mem_map.1 hi
      exact ⟨n, hn, Bool.not_eq_true _ ▸ (by simpa using hk), e, he, hei⟩
  · rintro ⟨n, hn, hk, e, he, hei⟩
    refine ⟨n, hn, ?_⟩
    rw [if_neg (by simp [hk])]
    exact List.mem_map.2 ⟨e, he, hei⟩

theorem mem_plannedRemoveIds {ons : List (String × List String)} {ds : List String}
    {i : String} :
    i ∈ plannedRemoveIds ons ds ↔ ∃ p ∈ ons, p.1 ∉ ds ∧ i ∈ p.2 := by
  rw [plannedRemoveIds, List.mem_flatMap]
  constructor
  · rintro ⟨p, hp, hi⟩
    by_cases hm : p.1 ∈ ds
    · rw [if_pos hm] at hi; cases hi
    · rw [if_neg hm] at hi
      exact ⟨p, hp, hm, hi⟩
  · rintro ⟨p, hp, hm, hi⟩
    refine ⟨p, hp, ?_⟩
    rw [if_neg hm]
    exact hi

/-! ## Membership in the matched current names -/

theorem mem_matchedNames {w : World} {c : Option String} {n : String} :
    n ∈ matchedNames w c ↔ ∃ i ∈ w.assigned, matchPred w.entities c i n := by
  rw [matchedNames, List.mem_filterMap]
  constructor
  · rintro ⟨i, hi, hf⟩
    refine ⟨i, hi, ?_⟩
    cases hg : getEntity w.entities i with
    | none => simp [hg] at hf
    | some e =>
      simp only [hg] at hf
      by_cases hc : clusterMatches c e
      · rw [if_pos hc] at hf
        injection hf with hf
        subst hf
        exact ⟨e, hg, hc, rfl⟩
      · rw [if_neg hc] at hf
        cases hf
  · rintro ⟨i, hi, e, hg, hc, hn⟩
    refine ⟨i, hi, ?_⟩
    simp only [hg]
    rw [if_pos hc, hn]

/-! ## Derived helpers -/

theorem hasKey_false_iff {ons : List (String × List String)} {n : String} :
    hasKey ons n = false ↔ ∀ p ∈ ons, p.1 ≠ n := by
  rw [← Bool.not_eq_true, hasKey_iff]
  push_neg
  rfl

theorem findIds_eq_nil {ons : List (String × List String)} {n : String}
    (h : hasKey ons n = false) : findIds ons n = [] := by
  induction ons with
  | nil => rfl
  | cons p rest ih =>
    have h1 : p.1 ≠ n := (hasKey_false_iff.1 h) p (List.mem_cons_self _ _)
    have h2 : hasKey rest n = false :=
      hasKey_false_iff.2 fun q hq => (hasKey_false_iff.1 h) q (List.mem_cons_of_mem _ hq)
    simp [findIds, h1, ih h2]

theorem mem_plannedRemoveIds_findIds {ons : List (String × List String)}
    {ds : List String} {i : String} (hnd : (ons.map Prod.fst).Nodup) :
    i ∈ plannedRemoveIds ons ds ↔ ∃ m, m ∉ ds ∧ i ∈ findIds ons m := by
  rw [mem_plannedRemoveIds]
  constructor
  · rintro ⟨p, hp, hm, hi⟩
    exact ⟨p.1, hm, (pair_findIds hnd hp).symm ▸ hi⟩
  · rintro ⟨m, hm, hi⟩
    by_cases hk : hasKey ons m
    · obtain ⟨l, hl, hf⟩ := hasKey_exists_pair hk
      exact ⟨(m, l), hl, hm, hf ▸ hi⟩
    · rw [findIds_eq_nil (Bool.not_eq_true _ ▸ (by simpa using hk))] at hi
      cases hi

theorem update_check_inv {p : Params} {cm : Bool} {st : LabelState} {r : CheckOut}
    (h : update_check p cm st = some r) :
    ∃ o1 o2, syncAssignments st.vmsWorld p.vms p.cluster cm = some o1 ∧
      syncAssignments st.hostsWorld p.hosts p.cluster cm = some o2 ∧
      r = ⟨⟨o1.world, o2.world⟩, o1.changed || o2.changed,
           o1.adds, o1.removes, o2.adds, o2.removes⟩ := by
  rw [update_check] at h
  cases h1 : syncAssignments st.vmsWorld p.vms p.cluster cm with
  | none => rw [h1] at h; exact absurd h (by simp)
  | some o1 =>
    rw [h1] at h
    cases h2 : syncAssignments st.hostsWorld p.hosts p.cluster cm with
    | none => rw [h2] at h; exact absurd h (by simp)
    | some o2 =>
      rw [h2] at h
      injection h with h
      exact ⟨o1, o2, rfl, rfl, h.symm⟩

theorem buildObjsNames_skip {es : List Entity} {c : Option String} {i : String}
    {e : Entity} (hg : getEntity es i = some e) (hc : clusterMatches c e = false) :
    ∀ (l1 l2 : List String) (acc : List (String × List String)),
      buildObjsNames es c (l1 ++ i :: l2) acc = buildObjsNames es c (l1 ++ l2) acc := by
  intro l1
  induction l1 with
  | nil =>
    intro l2 acc
    simp only [List.nil_append, buildObjsNames, hg]
    rw [if_neg (by simp [hc])]
  | cons a rest ih =>
    intro l2 acc
    simp only [List.cons_append, buildObjsNames]
    cases hga : getEntity es a with
    | none => rfl
    | some f => exact ih l2 _

theorem plannedRemoveIds_skip {ons : List (String × List String)} {n : String}
    (h : hasKey ons n = false) (d1 d2 : List String) :
    plannedRemoveIds ons (d1 ++ n :: d2) = plannedRemoveIds ons (d1 ++ d2) := by
  induction ons with
  | nil => rfl
  | cons p rest ih =>
    have h1 : p.1 ≠ n := (hasKey_false_iff.1 h) p (List.mem_cons_self _ _)
    have h2 : hasKey rest n = false :=
      hasKey_false_iff.2 fun q hq => (hasKey_false_iff.1 h) q (List.mem_cons_of_mem _ hq)
    have hmem : p.1 ∈ d1 ++ n :: d2 ↔ p.1 ∈ d1 ++ d2 := by
      simp [List.mem_append, List.mem_cons, h1]
    have ht := ih h2
    simp only [plannedRemoveIds, List.flatMap_cons] at ht ⊢
    rw [if_congr hmem rfl rfl, ht]

theorem contains_false_of_not_mem {l : List String} {a : String} (h : a ∉ l) :
    l.contains a = false := by
  rw [← Bool.not_eq_true]
  intro hc
  exact h (contains_iff.1 hc)

theorem mem_matchedIds {w : World} {c : Option String} {i : String} :
    i ∈ matchedIds w c ↔
      i ∈ w.assigned ∧ ∃ e, getEntity w.entities i = some e ∧ clusterMatches c e = true := by
  rw [matchedIds, List.mem_filter]
  constructor
  · rintro ⟨hi, hf⟩
    refine ⟨hi, ?_⟩
    cases hg : getEntity w.entities i with
    | none => simp [hg] at hf
    | some e =>
      simp only [hg] at hf
      exact ⟨e, rfl, hf⟩
  · rintro ⟨hi, e, hg, hc⟩
    refine ⟨hi, ?_⟩
    simp only [hg]
    exact hc

theorem sync_checkMode {w : World} {d : Option (List String)} {c : Option String}
    {outT outF : SyncOut}
    (hT : syncAssignments w d c true = some outT)
    (hF : syncAssignments w d c false = some outF) :
    outT.world = w ∧ outT.adds = [] ∧ outT.removes = [] ∧
      outT.changed = outF.changed := by
  cases d with
  | none =>
    rw [syncAssignments] at hT hF
    injection hT with hT
    injection hF with hF
    subst hT; subst hF
    exact ⟨rfl, rfl, rfl, rfl⟩
  | some ds =>
    obtain ⟨ons, hb⟩ := syncAssignments_some_build hT
    rw [syncAssignments_eq ds true hb] at hT
    rw [syncAssignments_eq ds false hb] at hF
    injection hT with hT
    injection hF with hF
    subst hT; subst hF
    exact ⟨rfl, rfl, rfl, rfl⟩

/-! ## Claim theorems -/

/-- C3: In dry-run (check) mode no mutating remote call (assignment add or
remove) is ever issued — the add/remove call lists are empty and the remote
state is untouched — and the changed flag reported equals the one an
otherwise identical non-dry-run execution computes from the same initial
remote state. -/
theorem c3_dry_run_no_mutation_same_changed {p : Params} {st : LabelState}
    {rT rF : CheckOut}
    (hT : update_check p true st = some rT)
    (hF : update_check p false st = some rF) :
    rT.state = st ∧ rT.vmAdds = [] ∧ rT.vmRemoves = [] ∧
      rT.hostAdds = [] ∧ rT.hostRemoves = [] ∧ rT.changed = rF.changed := by
  obtain ⟨o1T, o2T, h1T, h2T, hrT⟩ := update_check_inv hT
  obtain ⟨o1F, o2F, h1F, h2F, hrF⟩ := update_check_inv hF
  obtain ⟨hw1, ha1, hr1, hc1⟩ := sync_checkMode h1T h1F
  obtain ⟨hw2, ha2, hr2, hc2⟩ := sync_checkMode h2T h2F
  subst hrT
  subst hrF
  refine ⟨?_, ha1, hr1, ha2, hr2, by rw [hc1, hc2]⟩
  show LabelState.mk o1T.world o2T.world = st
  rw [hw1, hw2]

/-- C5: when a list key (`vms` here, `hosts` symmetrically) is unset (`None`),
the synchronization step for that kind is skipped entirely: no add or remove
call of that kind is issued, the assignments of that kind are left unchanged,
and the whole run's outcome — including the changed flag — is exactly the
outcome of the other kind's sync alone. -/
theorem c5_unset_list_skips_kind {p : Params} {cm : Bool} {st : LabelState}
    {r : CheckOut} (h : update_check p cm st = some r) :
    (p.vms = none →
      r.state.vmsWorld = st.vmsWorld ∧ r.vmAdds = [] ∧ r.vmRemoves = [] ∧
        syncAssignments st.hostsWorld p.hosts p.cluster cm =
          some ⟨r.state.hostsWorld, r.changed, r.hostAdds, r.hostRemoves⟩) ∧
    (p.hosts = none →
      r.state.hostsWorld = st.hostsWorld ∧ r.hostAdds = [] ∧ r.hostRemoves = [] ∧
        syncAssignments st.vmsWorld p.vms p.cluster cm =
          some ⟨r.state.vmsWorld, r.changed, r.vmAdds, r.vmRemoves⟩) := by
  obtain ⟨o1, o2, h1, h2, hr⟩ := update_check_inv h
  subst hr
  constructor
  · intro hv
    rw [hv, syncAssignments] at h1
    injection h1 with h1
    subst h1
    exact ⟨rfl, rfl, rfl, h2⟩
  · intro hh
    rw [hh, syncAssignments] at h2
    injection h2 with h2
    subst h2
    refine ⟨rfl, rfl, rfl, ?_⟩
    show syncAssignments st.vmsWorld p.vms p.cluster cm =
      some ⟨o1.world, o1.changed || false, o1.adds, o1.removes⟩
    rw [Bool.or_false]
    exact h1

/-- Two distinct entities sharing the display name "x" in cluster "c". -/
def twinsWorld : World := ⟨[⟨"a", "x", "c"⟩, ⟨"b", "x", "c"⟩], []⟩

/-- C7 counterexample: with two remote entities both named "x" in the
searched cluster and "x" desired but not currently assigned, the add loop
issues an add-assignment call for EVERY search result — two calls here — not
a single call for one chosen first match. -/
theorem c7_counterexample :
    (syncAssignments twinsWorld (some ["x"]) (some "c") false).map SyncOut.adds =
        some ["a", "b"] ∧
      (["a", "b"] : List String).length ≠ 1 := by
  exact ⟨by decide, by decide⟩

/-- C7 amended: for removal, all ids grouped under a non-desired current name
receive a remove-assignment call; for addition of a desired name not
currently assigned, EVERY entity returned by the name+cluster search (not
just the first match) receives an add-assignment call — the call lists are
exactly the planned flat-maps over grouped ids and over all search results. -/
theorem c7_amended_all_matches {w : World} {ds : List String} {c : Option String}
    {ons : List (String × List String)} {out : SyncOut}
    (hb : buildObjsNames w.entities c w.assigned [] = some ons)
    (hrun : syncAssignments w (some ds) c false = some out) :
    out.adds = plannedAddIds w.entities ons c ds ∧
    out.removes = plannedRemoveIds ons ds ∧
    (∀ p ∈ ons, p.1 ∉ ds → ∀ i ∈ p.2, i ∈ out.removes) ∧
    (∀ n ∈ ds, hasKey ons n = false →
      ∀ e ∈ searchNameCluster w.entities n c, e.eid ∈ out.adds) := by
  rw [syncAssignments_eq ds false hb] at hrun
  injection hrun with hrun
  subst hrun
  refine ⟨rfl, rfl, ?_, ?_⟩
  · intro p hp hpn i hi
    show i ∈ (if (false : Bool) = true then ([] : List String) else plannedRemoveIds ons ds)
    rw [if_neg (by simp)]
    exact mem_plannedRemoveIds.2 ⟨p, hp, hpn, hi⟩
  · intro n hn hk e he
    show e.eid ∈
      (if (false : Bool) = true then ([] : List String) else plannedAddIds w.entities ons c ds)
    rw [if_neg (by simp)]
    exact mem_plannedAddIds.2 ⟨n, hn, hk, e, he, rfl⟩

/-- C10: a desired name that is neither among the cluster-matching current
assignments nor resolvable by the name+cluster search is silently skipped:
the whole run (final state, changed flag, calls, errors) is identical to the
run with that name omitted from the desired list. -/
theorem c10_unresolvable_name_skipped {w : World} {c : Option String}
    {ons : List (String × List String)} {n : String} (d1 d2 : List String) (cm : Bool)
    (hb : buildObjsNames w.entities c w.assigned [] = some ons)
    (hk : hasKey ons n = false)
    (hs : searchNameCluster w.entities n c = []) :
    syncAssignments w (some (d1 ++ n :: d2)) c cm =
      syncAssignments w (some (d1 ++ d2)) c cm := by
  have hadd : plannedAddIds w.entities ons c (d1 ++ n :: d2) =
      plannedAddIds w.entities ons c (d1 ++ d2) := by
    simp [plannedAddIds, List.flatMap_append, List.flatMap_cons, hk, hs]
  have hrem := plannedRemoveIds_skip hk d1 d2
  have hany : (ons.any fun p => !((d1 ++ n :: d2).contains p.1)) =
      (ons.any fun p => !((d1 ++ d2).contains p.1)) := by
    apply Bool.eq_iff_iff.2
    rw [List.any_eq_true, List.any_eq_true]
    constructor <;> rintro ⟨p, hp, hc⟩ <;> refine ⟨p, hp, ?_⟩ <;>
      have h1 : p.1 ≠ n := (hasKey_false_iff.1 hk) p hp
    · have h2 : p.1 ∉ d1 ++ n :: d2 := by
        intro hmm
        rw [contains_iff.2 hmm] at hc
        cases hc
      have h3 : p.1 ∉ d1 ++ d2 := by
        intro hmm
        rcases List.mem_append.1 hmm with hmm | hmm
        · exact h2 (List.mem_append.2 (Or.inl hmm))
        · exact h2 (List.mem_append.2 (Or.inr (List.mem_cons_of_mem _ hmm)))
      rw [contains_false_of_not_mem h3]
      rfl
    · have h2 : p.1 ∉ d1 ++ d2 := by
        intro hmm
        rw [contains_iff.2 hmm] at hc
        cases hc
      have h3 : p.1 ∉ d1 ++ n :: d2 := by
        intro hmm
        rcases List.mem_append.1 hmm with hmm | hmm
        · exact h2 (List.mem_append.2 (Or.inl hmm))
        · rcases List.mem_cons.1 hmm with hmm | hmm
          · exact h1 hmm
          · exact h2 (List.mem_append.2 (Or.inr hmm))
      rw [contains_false_of_not_mem h3]
      rfl
  rw [syncAssignments_eq (d1 ++ n :: d2) cm hb, syncAssignments_eq (d1 ++ d2) cm hb,
    hadd, hrem, hany]

/-- C8 (code bug): when `create_connection` itself raises, the except clause
runs `fail_json` and then the `finally` clause references the never-bound
local `connection`, raising `NameError`: no close happens on that failure
path, contrary to the guaranteed-cleanup reading. -/
theorem c8_close_skipped_on_create_failure (bodyOk : Bool) :
    mainEvents "present" (some "mycluster") true false bodyOk =
        [Ev.connectAttempt, Ev.failJson, Ev.nameError] ∧
      Ev.close ∉ mainEvents "present" (some "mycluster") true false bodyOk := by
  cases bodyOk <;> exact ⟨by decide, by decide⟩

/-- C9: an invocation with state=present and no cluster parameter is rejected
by the argument validation (`required_if`) before any remote call — in
particular before connection creation is even attempted — regardless of SDK
availability or how the remote would have behaved. -/
theorem c9_present_without_cluster_rejected (sdkOk createOk bodyOk : Bool) :
    mainEvents "present" none sdkOk createOk bodyOk = [Ev.rejected] ∧
      Ev.connectAttempt ∉ mainEvents "present" none sdkOk createOk bodyOk := by
  have h : mainEvents "present" none sdkOk createOk bodyOk = [Ev.rejected] := rfl
  refine ⟨h, ?_⟩
  rw [h]
  decide

/-- C1: for a provided desired name list, when every desired name resolves
via the name+cluster search to at least one entity (and the remote ids are
consistent), after a non-dry-run `_update_label_assignments` pass the set of
names of cluster-matching entities assigned to the label equals the desired
list viewed as a set, independent of either list's ordering. -/
theorem c1_sync_set_equality {w : World} {ds : List String} {c : Option String}
    {out : SyncOut}
    (hnd : (w.entities.map Entity.eid).Nodup)
    (hsearch : ∀ n ∈ ds, searchNameCluster w.entities n c ≠ [])
    (hrun : syncAssignments w (some ds) c false = some out) :
    (matchedNames out.world c).toFinset = ds.toFinset := by
  obtain ⟨ons, hb⟩ := syncAssignments_some_build hrun
  rw [syncAssignments_eq ds false hb] at hrun
  injection hrun with hrun
  subst hrun
  have hknd : (ons.map Prod.fst).Nodup := buildObjsNames_keysNodup _ _ _ (by simp) hb
  have hfind := buildObjsNames_findIds w.assigned [] ons hb
  have hvals := buildObjsNames_valsNonempty w.assigned [] ons (by simp) hb
  ext n
  simp only [List.mem_toFinset]
  rw [mem_matchedNames]
  show (∃ i ∈ (if (false : Bool) = true then w.assigned
        else (w.assigned ++ plannedAddIds w.entities ons c ds).filter
          (fun j => !((plannedRemoveIds ons ds).contains j))),
      matchPred w.entities c i n) ↔ n ∈ ds
  rw [if_neg (by simp)]
  constructor
  · rintro ⟨i, hi, hp⟩
    rw [List.mem_filter] at hi
    obtain ⟨hiA, hfilt⟩ := hi
    have hcontf : (plannedRemoveIds ons ds).contains i = false := by simpa using hfilt
    have hirem : i ∉ plannedRemoveIds ons ds := by
      intro hmem
      rw [contains_iff.2 hmem] at hcontf
      cases hcontf
    rcases List.mem_append.1 hiA with hiW | hiAdd
    · by_contra hnds
      apply hirem
      apply (mem_plannedRemoveIds_findIds hknd).2
      exact ⟨n, hnds, (hfind n i).2 (Or.inr ⟨hiW, hp⟩)⟩
    · obtain ⟨m, hm, hk', e, he, hei⟩ := mem_plannedAddIds.1 hiAdd
      obtain ⟨heES, hename, -⟩ := mem_searchNameCluster.1 he
      have hge : getEntity w.entities i = some e := by
        rw [← hei]
        exact getEntity_of_mem hnd heES
      obtain ⟨e2, hg2, -, hn2⟩ := hp
      rw [hge] at hg2
      injection hg2 with hg2
      subst hg2
      rw [← hn2, hename]
      exact hm
  · intro hn
    by_cases hk : hasKey ons n
    · obtain ⟨l, hlmem, hlf⟩ := hasKey_exists_pair hk
      have hlne : l ≠ [] := hvals (n, l) hlmem
      obtain ⟨i, hil⟩ := List.exists_mem_of_ne_nil l hlne
      have hinf : i ∈ findIds ons n := hlf ▸ hil
      rcases (hfind n i).1 hinf with hfalse | ⟨hiW, hp⟩
      · simp [findIds] at hfalse
      · have hirem : i ∉ plannedRemoveIds ons ds := by
          intro hmem
          obtain ⟨m, hm, hif⟩ := (mem_plannedRemoveIds_findIds hknd).1 hmem
          rcases (hfind m i).1 hif with hfalse | ⟨-, hpm⟩
          · simp [findIds] at hfalse
          · have heq : m = n := matchPred_unique hpm hp
            subst heq
            exact hm hn
        refine ⟨i, ?_, hp⟩
        rw [List.mem_filter]
        refine ⟨List.mem_append.2 (Or.inl hiW), ?_⟩
        rw [contains_false_of_not_mem hirem]
        rfl
    · obtain ⟨e, he⟩ := List.exists_mem_of_ne_nil _ (hsearch n hn)
      obtain ⟨heES, hename, -⟩ := mem_searchNameCluster.1 he
      have hge : getEntity w.entities e.eid = some e := getEntity_of_mem hnd heES
      have hp : matchPred w.entities c e.eid n :=
        ⟨e, hge, clusterMatches_of_mem_search he, hename⟩
      have hiAdd : e.eid ∈ plannedAddIds w.entities ons c ds :=
        mem_plannedAddIds.2 ⟨n, hn, (by simpa using hk), e, he, rfl⟩
      have hirem : e.eid ∉ plannedRemoveIds ons ds := by
        intro hmem
        obtain ⟨m, hm, hif⟩ := (mem_plannedRemoveIds_findIds hknd).1 hmem
        rcases (hfind m e.eid).1 hif with hfalse | ⟨-, hpm⟩
        · simp [findIds] at hfalse
        · have heq : m = n := matchPred_unique hpm hp
          subst heq
          exact hm hn
      refine ⟨e.eid, ?_, hp⟩
      rw [List.mem_filter]
      refine ⟨List.mem_append.2 (Or.inr hiAdd), ?_⟩
      rw [contains_false_of_not_mem hirem]
      rfl

/-- One non-dry-run `_update_label_assignments` pass is idempotent: a second
pass from the state the first one produced reports no change. -/
theorem sync_idempotent {w : World} {d : Option (List String)} {c : Option String}
    {out : SyncOut}
    (hnd : (w.entities.map Entity.eid).Nodup)
    (hres : ∀ i ∈ w.assigned, ∃ e ∈ w.entities, e.eid = i)
    (h1 : syncAssignments w d c false = some out) :
    ∃ out2, syncAssignments out.world d c false = some out2 ∧ out2.changed = false := by
  cases d with
  | none =>
    rw [syncAssignments] at h1
    injection h1 with h1
    subst h1
    exact ⟨⟨w, false, [], []⟩, rfl, rfl⟩
  | some ds =>
    obtain ⟨ons, hb⟩ := syncAssignments_some_build h1
    rw [syncAssignments_eq ds false hb] at h1
    injection h1 with h1
    subst h1
    have hknd : (ons.map Prod.fst).Nodup := buildObjsNames_keysNodup _ _ _ (by simp) hb
    have hfind := buildObjsNames_findIds w.assigned [] ons hb
    have hvals := buildObjsNames_valsNonempty w.assigned [] ons (by simp) hb
    show ∃ out2,
      syncAssignments
        ⟨w.entities,
         if (false : Bool) = true then w.assigned
         else (w.assigned ++ plannedAddIds w.entities ons c ds).filter
           (fun j => !((plannedRemoveIds ons ds).contains j))⟩
        (some ds) c false = some out2 ∧ out2.changed = false
    rw [if_neg (by simp)]
    set A2 := (w.assigned ++ plannedAddIds w.entities ons c ds).filter
      (fun j => !((plannedRemoveIds ons ds).contains j)) with hA2
    -- every id of the new assigned list still resolves
    have hres2 : ∀ i ∈ A2, ∃ e ∈ w.entities, e.eid = i := by
      intro i hi
      rw [hA2, List.mem_filter] at hi
      rcases List.mem_append.1 hi.1 with hiW | hiAdd
      · exact hres i hiW
      · obtain ⟨m, -, -, e, he, hei⟩ := mem_plannedAddIds.1 hiAdd
        exact ⟨e, (mem_searchNameCluster.1 he).1, hei⟩
    obtain ⟨ons2, hb2⟩ :=
      buildObjsNames_some A2 [] (fun i hi => getEntity_isSome (hres2 i hi))
    have hkey2 := buildObjsNames_hasKey A2 [] ons2 hb2
    -- any id of the new list that was carried over or added is cluster-matched
    -- to a name that stays desired, so the second pass plans nothing
    have hmemA2 : ∀ i ∈ A2, i ∉ plannedRemoveIds ons ds := by
      intro i hi hmem
      rw [hA2, List.mem_filter] at hi
      rw [contains_iff.2 hmem] at hi
      exact absurd hi.2 (by simp)
    have hadds2 : plannedAddIds w.entities ons2 c ds = [] := by
      rw [List.eq_nil_iff_forall_not_mem]
      intro i hi
      obtain ⟨n, hn, hk2, e, he, -⟩ := mem_plannedAddIds.1 hi
      -- show the name n is in fact a key of the second grouped dict
      have hwitness : ∃ j ∈ A2, matchPred w.entities c j n := by
        by_cases hk1 : hasKey ons n
        · obtain ⟨l, hlmem, hlf⟩ := hasKey_exists_pair hk1
          obtain ⟨i0, hi0l⟩ := List.exists_mem_of_ne_nil l (hvals (n, l) hlmem)
          have hi0f : i0 ∈ findIds ons n := hlf ▸ hi0l
          rcases (hfind n i0).1 hi0f with hfalse | ⟨hi0W, hp0⟩
          · simp [findIds] at hfalse
          · have hi0rem : i0 ∉ plannedRemoveIds ons ds := by
              intro hmem
              obtain ⟨m, hm, hif⟩ := (mem_plannedRemoveIds_findIds hknd).1 hmem
              rcases (hfind m i0).1 hif with hfalse | ⟨-, hpm⟩
              · simp [findIds] at hfalse
              · have heq : m = n := matchPred_unique hpm hp0
                subst heq
                exact hm hn
            refine ⟨i0, ?_, hp0⟩
            rw [hA2, List.mem_filter]
            refine ⟨List.mem_append.2 (Or.inl hi0W), ?_⟩
            rw [contains_false_of_not_mem hi0rem]
            rfl
        · obtain ⟨heES, hename, -⟩ := mem_searchNameCluster.1 he
          have hge : getEntity w.entities e.eid = some e := getEntity_of_mem hnd heES
          have hp : matchPred w.entities c e.eid n :=
            ⟨e, hge, clusterMatches_of_mem_search he, hename⟩
          have hiAdd : e.eid ∈ plannedAddIds w.entities ons c ds :=
            mem_plannedAddIds.2 ⟨n, hn, (by simpa using hk1), e, he, rfl⟩
          have hirem : e.eid ∉ plannedRemoveIds ons ds := by
            intro hmem
            obtain ⟨m, hm, hif⟩ := (mem_plannedRemoveIds_findIds hknd).1 hmem
            rcases (hfind m e.eid).1 hif with hfalse | ⟨-, hpm⟩
            · simp [findIds] at hfalse
            · have heq : m = n := matchPred_unique hpm hp
              subst heq
              exact hm hn
          refine ⟨e.eid, ?_, hp⟩
          rw [hA2, List.mem_filter]
          refine ⟨List.mem_append.2 (Or.inr hiAdd), ?_⟩
          rw [contains_false_of_not_mem hirem]
          rfl
      have : hasKey ons2 n = true := (hkey2 n).2 (Or.inr hwitness)
      rw [hk2] at this
      cases this
    have hany2 : (ons2.any fun p => !(ds.contains p.1)) = false := by
      rw [List.any_eq_false]
      intro p hp
      have hkp : hasKey ons2 p.1 = true := hasKey_of_mem hp
      rcases (hkey2 p.1).1 hkp with hfalse | ⟨i, hiA2, hpi⟩
      · simp [hasKey] at hfalse
      · have hds : p.1 ∈ ds := by
          have hinotrem := hmemA2 i hiA2
          rw [hA2, List.mem_filter] at hiA2
          rcases List.mem_append.1 hiA2.1 with hiW | hiAdd
          · by_contra hnds
            apply hinotrem
            apply (mem_plannedRemoveIds_findIds hknd).2
            exact ⟨p.1, hnds, (hfind p.1 i).2 (Or.inr ⟨hiW, hpi⟩)⟩
          · obtain ⟨m, hm, -, e, he, hei⟩ := mem_plannedAddIds.1 hiAdd
            obtain ⟨heES, hename, -⟩ := mem_searchNameCluster.1 he
            have hge : getEntity w.entities i = some e := by
              rw [← hei]
              exact getEntity_of_mem hnd heES
            obtain ⟨e2, hg2, -, hn2⟩ := hpi
            rw [hge] at hg2
            injection hg2 with hg2
            subst hg2
            rw [← hn2, hename]
            exact hm
        rw [contains_iff.2 hds]
        simp
    refine ⟨_, syncAssignments_eq ds false hb2, ?_⟩
    show (!(plannedAddIds w.entities ons2 c ds).isEmpty
        || ons2.any fun p => !(ds.contains p.1)) = false
    rw [hadds2, hany2]
    rfl

/-- C2: reconciliation is idempotent — running the assignment reconciliation
(`update_check`, both kinds) a second time on the state produced by a first
non-dry-run pass, with identical parameters, reports changed=false. -/
theorem c2_reconcile_idempotent {p : Params} {st : LabelState} {r1 : CheckOut}
    (hndv : (st.vmsWorld.entities.map Entity.eid).Nodup)
    (hresv : ∀ i ∈ st.vmsWorld.assigned, ∃ e ∈ st.vmsWorld.entities, e.eid = i)
    (hndh : (st.hostsWorld.entities.map Entity.eid).Nodup)
    (hresh : ∀ i ∈ st.hostsWorld.assigned, ∃ e ∈ st.hostsWorld.entities, e.eid = i)
    (h1 : update_check p false st = some r1) :
    ∃ r2, update_check p false r1.state = some r2 ∧ r2.changed = false := by
  obtain ⟨o1, o2, h1v, h1h, hr⟩ := update_check_inv h1
  subst hr
  obtain ⟨o1b, h2v, hc1⟩ := sync_idempotent hndv hresv h1v
  obtain ⟨o2b, h2h, hc2⟩ := sync_idempotent hndh hresh h1h
  refine ⟨⟨⟨o1b.world, o2b.world⟩, o1b.changed || o2b.changed,
           o1b.adds, o1b.removes, o2b.adds, o2b.removes⟩, ?_, by simp [hc1, hc2]⟩
  show update_check p false ⟨o1.world, o2.world⟩ = some _
  simp only [update_check, h2v, h2h]

/-- C6: with a cluster filter given, a currently assigned entity whose
cluster differs from the filter is ignored entirely by the sync: the run has
exactly the same changed flag and add/remove calls as the run on the state
with that assignment deleted, no remove call ever names it, and its
assignment survives the pass. -/
theorem c6_cluster_filter_frame {w : World} {cl : String} {i : String} {e : Entity}
    {l1 l2 ds : List String} {cm : Bool} {out outR : SyncOut}
    (hg : getEntity w.entities i = some e) (hcl : e.ecluster ≠ cl)
    (hsplit : w.assigned = l1 ++ i :: l2)
    (hrun : syncAssignments w (some ds) (some cl) cm = some out)
    (hrunR : syncAssignments ⟨w.entities, l1 ++ l2⟩ (some ds) (some cl) cm = some outR) :
    out.changed = outR.changed ∧ out.adds = outR.adds ∧ out.removes = outR.removes ∧
      i ∉ out.removes ∧ i ∈ out.world.assigned := by
  have hcm : clusterMatches (some cl) e = false := by
    simp [clusterMatches]
    exact hcl
  obtain ⟨ons, hb⟩ := syncAssignments_some_build hrun
  have hbR : buildObjsNames w.entities (some cl) (l1 ++ l2) [] = some ons := by
    rw [← buildObjsNames_skip hg hcm l1 l2 []]
    rw [← hsplit]
    exact hb
  rw [syncAssignments_eq ds cm hb] at hrun
  rw [syncAssignments_eq ds cm hbR] at hrunR
  injection hrun with hrun
  injection hrunR with hrunR
  subst hrun
  subst hrunR
  have hknd : (ons.map Prod.fst).Nodup := buildObjsNames_keysNodup _ _ _ (by simp) hb
  have hfind := buildObjsNames_findIds w.assigned [] ons hb
  have hirem : i ∉ plannedRemoveIds ons ds := by
    intro hmem
    obtain ⟨m, -, hif⟩ := (mem_plannedRemoveIds_findIds hknd).1 hmem
    rcases (hfind m i).1 hif with hfalse | ⟨-, e2, hg2, hc2, -⟩
    · simp [findIds] at hfalse
    · rw [hg] at hg2
      injection hg2 with hg2
      subst hg2
      rw [hcm] at hc2
      cases hc2
  refine ⟨rfl, rfl, rfl, ?_, ?_⟩
  · cases cm with
    | true => simp
    | false =>
      show i ∉ (if (false : Bool) = true then ([] : List String) else plannedRemoveIds ons ds)
      rw [if_neg (by simp)]
      exact hirem
  · have hiA : i ∈ w.assigned := by
      rw [hsplit]
      exact List.mem_append.2 (Or.inr (List.mem_cons_self _ _))
    cases cm with
    | true => simpa using hiA
    | false =>
      show i ∈ (if (false : Bool) = true then w.assigned
        else (w.assigned ++ plannedAddIds w.entities ons (some cl) ds).filter
          (fun j => !((plannedRemoveIds ons ds).contains j)))
      rw [if_neg (by simp)]
      rw [List.mem_filter]
      refine ⟨List.mem_append.2 (Or.inl hiA), ?_⟩
      rw [contains_false_of_not_mem hirem]
      rfl

/-- One sync pass with desired list `[]`: it always succeeds when the current
assigned ids resolve, and the remove calls it issues are exactly the
cluster-matching currently assigned ids. -/
theorem sync_empty_list (w : World) (c : Option String)
    (hres : ∀ i ∈ w.assigned, ∃ e ∈ w.entities, e.eid = i) :
    ∃ out, syncAssignments w (some []) c false = some out ∧
      (∀ i, i ∈ out.removes ↔ i ∈ matchedIds w c) := by
  obtain ⟨ons, hb⟩ :=
    buildObjsNames_some w.assigned [] (fun i hi => getEntity_isSome (hres i hi))
  have hknd : (ons.map Prod.fst).Nodup := buildObjsNames_keysNodup _ _ _ (by simp) hb
  have hfind := buildObjsNames_findIds w.assigned [] ons hb
  refine ⟨_, syncAssignments_eq [] false hb, ?_⟩
  intro i
  show i ∈ (if (false : Bool) = true then ([] : List String)
      else plannedRemoveIds ons []) ↔ i ∈ matchedIds w c
  rw [if_neg (by simp)]
  rw [mem_plannedRemoveIds_findIds hknd, mem_matchedIds]
  constructor
  · rintro ⟨m, -, hif⟩
    rcases (hfind m i).1 hif with hfalse | ⟨hiA, e, hge, hce, -⟩
    · simp [findIds] at hfalse
    · exact ⟨hiA, e, hge, hce⟩
  · rintro ⟨hiA, e, hge, hce⟩
    refine ⟨e.ename, by simp, ?_⟩
    exact (hfind e.ename i).2 (Or.inr ⟨hiA, e, hge, hce, rfl⟩)

/-- A label with one VM assignment whose entity lives in cluster "c1". -/
def outsideClusterState : LabelState := ⟨⟨[⟨"a", "vm1", "c1"⟩], ["a"]⟩, ⟨[], []⟩⟩

/-- C4 counterexample: `pre_remove` empties the `vms`/`hosts` parameters but
keeps the caller's `cluster` parameter, so with state=absent and
cluster="c2" the existing assignment of the VM in cluster "c1" receives NO
remove call before the label is deleted — the removal IS restricted by the
cluster filter, contrary to the claim. -/
theorem c4_counterexample :
    ensureAbsent (some outsideClusterState) (some "c2") false =
        some ⟨true, none, [], []⟩ ∧
      outsideClusterState.vmsWorld.assigned = ["a"] := by
  exact ⟨by decide, rfl⟩

/-- C4 amended: with state=absent and no dry-run, if the label does not exist
nothing is mutated and changed=false; if it exists, the assignments matching
the cluster filter (all of them when no cluster parameter is given) receive
remove calls, the label is then deleted, and changed=true is reported. -/
theorem c4_amended_absent (st : LabelState) (c : Option String)
    (hresv : ∀ i ∈ st.vmsWorld.assigned, ∃ e ∈ st.vmsWorld.entities, e.eid = i)
    (hresh : ∀ i ∈ st.hostsWorld.assigned, ∃ e ∈ st.hostsWorld.entities, e.eid = i) :
    ensureAbsent none c false = some ⟨false, none, [], []⟩ ∧
    ∃ out, ensureAbsent (some st) c false = some out ∧ out.changed = true ∧
      out.label = none ∧
      out.vmRemoves.toFinset = (matchedIds st.vmsWorld c).toFinset ∧
      out.hostRemoves.toFinset = (matchedIds st.hostsWorld c).toFinset := by
  refine ⟨rfl, ?_⟩
  obtain ⟨o1, h1, hrem1⟩ := sync_empty_list st.vmsWorld c hresv
  obtain ⟨o2, h2, hrem2⟩ := sync_empty_list st.hostsWorld c hresh
  refine ⟨⟨true, none, o1.removes, o2.removes⟩, ?_, rfl, rfl, ?_, ?_⟩
  · simp only [ensureAbsent, update_check, h1, h2, Bool.false_eq_true, if_false]
  · ext i
    simp only [List.mem_toFinset]
    exact hrem1 i
  · ext i
    simp only [List.mem_toFinset]
    exact hrem2 i

/-! ## Concrete witnesses -/

/-- The spec's worked example: vm1, vm2, vm3, all in "mycluster". -/
def exEntities : List Entity :=
  [⟨"id1", "vm1", "mycluster"⟩, ⟨"id2", "vm2", "mycluster"⟩, ⟨"id3", "vm3", "mycluster"⟩]

def exWorld : World := ⟨exEntities, ["id2", "id3"]⟩

def exOut : SyncOut := ⟨⟨exEntities, ["id2", "id1"]⟩, true, ["id1"], ["id3"]⟩

/-- Witness for C1 at the spec's worked example: desired ["vm1","vm2"],
currently assigned vm2 and vm3 → add vm1, remove vm3, final matched name set
equals the desired set. -/
theorem c1_witness :
    ((exWorld.entities.map Entity.eid).Nodup ∧
      (∀ n ∈ (["vm1", "vm2"] : List String),
        searchNameCluster exWorld.entities n (some "mycluster") ≠ []) ∧
      syncAssignments exWorld (some ["vm1", "vm2"]) (some "mycluster") false = some exOut) ∧
    (matchedNames exOut.world (some "mycluster")).toFinset =
      (["vm1", "vm2"] : List String).toFinset := by
  have h1 : (exWorld.entities.map Entity.eid).Nodup := by decide
  have h2 : ∀ n ∈ (["vm1", "vm2"] : List String),
      searchNameCluster exWorld.entities n (some "mycluster") ≠ [] := by decide
  have h3 : syncAssignments exWorld (some ["vm1", "vm2"]) (some "mycluster") false =
      some exOut := by decide
  exact ⟨⟨h1, h2, h3⟩, c1_sync_set_equality h1 h2 h3⟩

def exState : LabelState := ⟨exWorld, ⟨[], []⟩⟩

def exParams : Params := ⟨some ["vm1", "vm2"], none, some "mycluster"⟩

def exCheckOut : CheckOut :=
  ⟨⟨⟨exEntities, ["id2", "id1"]⟩, ⟨[], []⟩⟩, true, ["id1"], ["id3"], [], []⟩

/-- Witness for C2: after the first reconciliation converges the example
state, a second identical run reports changed=false. -/
theorem c2_witness :
    ((exState.vmsWorld.entities.map Entity.eid).Nodup ∧
      (∀ i ∈ exState.vmsWorld.assigned, ∃ e ∈ exState.vmsWorld.entities, e.eid = i) ∧
      (exState.hostsWorld.entities.map Entity.eid).Nodup ∧
      (∀ i ∈ exState.hostsWorld.assigned, ∃ e ∈ exState.hostsWorld.entities, e.eid = i) ∧
      update_check exParams false exState = some exCheckOut) ∧
    ∃ r2, update_check exParams false exCheckOut.state = some r2 ∧ r2.changed = false := by
  have h1 : (exState.vmsWorld.entities.map Entity.eid).Nodup := by decide
  have h2 : ∀ i ∈ exState.vmsWorld.assigned,
      ∃ e ∈ exState.vmsWorld.entities, e.eid = i := by decide
  have h3 : (exState.hostsWorld.entities.map Entity.eid).Nodup := by decide
  have h4 : ∀ i ∈ exState.hostsWorld.assigned,
      ∃ e ∈ exState.hostsWorld.entities, e.eid = i := by decide
  have h5 : update_check exParams false exState = some exCheckOut := by decide
  exact ⟨⟨h1, h2, h3, h4, h5⟩, c2_reconcile_idempotent h1 h2 h3 h4 h5⟩

def exParamsC3 : Params := ⟨some ["vm1"], none, some "mycluster"⟩

def exStateC3 : LabelState := ⟨⟨exEntities, []⟩, ⟨[], []⟩⟩

def exOutT : CheckOut := ⟨exStateC3, true, [], [], [], []⟩

def exOutF : CheckOut := ⟨⟨⟨exEntities, ["id1"]⟩, ⟨[], []⟩⟩, true, ["id1"], [], [], []⟩

/-- Witness for C3: a dry run that would add vm1 issues no call, leaves the
state untouched and reports the same changed=true as the real run. -/
theorem c3_witness :
    (update_check exParamsC3 true exStateC3 = some exOutT ∧
      update_check exParamsC3 false exStateC3 = some exOutF) ∧
    (exOutT.state = exStateC3 ∧ exOutT.vmAdds = [] ∧ exOutT.vmRemoves = [] ∧
      exOutT.hostAdds = [] ∧ exOutT.hostRemoves = [] ∧
      exOutT.changed = exOutF.changed) := by
  have h1 : update_check exParamsC3 true exStateC3 = some exOutT := by decide
  have h2 : update_check exParamsC3 false exStateC3 = some exOutF := by decide
  exact ⟨⟨h1, h2⟩, c3_dry_run_no_mutation_same_changed h1 h2⟩

/-- Witness for C4 (amended): state=absent with cluster="c2" on a label whose
only VM assignment lives in cluster "c1": the run reports changed=true,
deletes the label, and the remove calls are exactly the cluster-matching
assignments — here none. -/
theorem c4_witness :
    ((∀ i ∈ outsideClusterState.vmsWorld.assigned,
        ∃ e ∈ outsideClusterState.vmsWorld.entities, e.eid = i) ∧
      (∀ i ∈ outsideClusterState.hostsWorld.assigned,
        ∃ e ∈ outsideClusterState.hostsWorld.entities, e.eid = i)) ∧
    (ensureAbsent none (some "c2") false = some ⟨false, none, [], []⟩ ∧
      ∃ out, ensureAbsent (some outsideClusterState) (some "c2") false = some out ∧
        out.changed = true ∧ out.label = none ∧
        out.vmRemoves.toFinset =
          (matchedIds outsideClusterState.vmsWorld (some "c2")).toFinset ∧
        out.hostRemoves.toFinset =
          (matchedIds outsideClusterState.hostsWorld (some "c2")).toFinset) := by
  have h1 : ∀ i ∈ outsideClusterState.vmsWorld.assigned,
      ∃ e ∈ outsideClusterState.vmsWorld.entities, e.eid = i := by decide
  have h2 : ∀ i ∈ outsideClusterState.hostsWorld.assigned,
      ∃ e ∈ outsideClusterState.hostsWorld.entities, e.eid = i := by decide
  exact ⟨⟨h1, h2⟩, c4_amended_absent outsideClusterState (some "c2") h1 h2⟩

def noneParams : Params := ⟨none, none, none⟩

def emptyState : LabelState := ⟨⟨[], []⟩, ⟨[], []⟩⟩

def emptyCheckOut : CheckOut := ⟨emptyState, false, [], [], [], []⟩

/-- Witness for C5: both list keys unset — both kinds are skipped and the run
is exactly the other kind's (trivial) sync. -/
theorem c5_witness :
    update_check noneParams false emptyState = some emptyCheckOut ∧
    ((noneParams.vms = none →
      emptyCheckOut.state.vmsWorld = emptyState.vmsWorld ∧ emptyCheckOut.vmAdds = [] ∧
        emptyCheckOut.vmRemoves = [] ∧
        syncAssignments emptyState.hostsWorld noneParams.hosts noneParams.cluster false =
          some ⟨emptyCheckOut.state.hostsWorld, emptyCheckOut.changed,
                emptyCheckOut.hostAdds, emptyCheckOut.hostRemoves⟩) ∧
    (noneParams.hosts = none →
      emptyCheckOut.state.hostsWorld = emptyState.hostsWorld ∧ emptyCheckOut.hostAdds = [] ∧
        emptyCheckOut.hostRemoves = [] ∧
        syncAssignments emptyState.vmsWorld noneParams.vms noneParams.cluster false =
          some ⟨emptyCheckOut.state.vmsWorld, emptyCheckOut.changed,
                emptyCheckOut.vmAdds, emptyCheckOut.vmRemoves⟩)) := by
  have h : update_check noneParams false emptyState = some emptyCheckOut := by decide
  exact ⟨h, c5_unset_list_skips_kind h⟩

def otherClusterEntity : Entity := ⟨"a", "vm1", "other"⟩

def sixWorld : World := ⟨[otherClusterEntity], ["a"]⟩

def sixOut : SyncOut := ⟨⟨[otherClusterEntity], ["a"]⟩, false, [], []⟩

def sixOutR : SyncOut := ⟨⟨[otherClusterEntity], []⟩, false, [], []⟩

/-- Witness for C6: a VM in cluster "other" assigned to the label, filter
"c", empty desired list — the assignment is never removed, counts nothing,
and the run equals the run without it. -/
theorem c6_witness :
    (getEntity sixWorld.entities "a" = some otherClusterEntity ∧
      otherClusterEntity.ecluster ≠ "c" ∧
      sixWorld.assigned = [] ++ "a" :: [] ∧
      syncAssignments sixWorld (some []) (some "c") false = some sixOut ∧
      syncAssignments ⟨sixWorld.entities, [] ++ []⟩ (some []) (some "c") false =
        some sixOutR) ∧
    (sixOut.changed = sixOutR.changed ∧ sixOut.adds = sixOutR.adds ∧
      sixOut.removes = sixOutR.removes ∧ "a" ∉ sixOut.removes ∧
      "a" ∈ sixOut.world.assigned) := by
  have h1 : getEntity sixWorld.entities "a" = some otherClusterEntity := by decide
  have h2 : otherClusterEntity.ecluster ≠ "c" := by decide
  have h3 : sixWorld.assigned = [] ++ "a" :: [] := by decide
  have h4 : syncAssignments sixWorld (some []) (some "c") false = some sixOut := by decide
  have h5 : syncAssignments ⟨sixWorld.entities, [] ++ []⟩ (some []) (some "c") false =
      some sixOutR := by decide
  exact ⟨⟨h1, h2, h3, h4, h5⟩, c6_cluster_filter_frame h1 h2 h3 h4 h5⟩

def twinsOut : SyncOut := ⟨⟨twinsWorld.entities, ["a", "b"]⟩, true, ["a", "b"], []⟩

/-- Witness for C7 (amended): both same-named entities receive an add call. -/
theorem c7_witness :
    (buildObjsNames twinsWorld.entities (some "c") twinsWorld.assigned [] = some [] ∧
      syncAssignments twinsWorld (some ["x"]) (some "c") false = some twinsOut) ∧
    (twinsOut.adds = plannedAddIds twinsWorld.entities [] (some "c") ["x"] ∧
      twinsOut.removes = plannedRemoveIds [] ["x"] ∧
      (∀ p ∈ ([] : List (String × List String)),
        p.1 ∉ (["x"] : List String) → ∀ i ∈ p.2, i ∈ twinsOut.removes) ∧
      (∀ n ∈ (["x"] : List String), hasKey [] n = false →
        ∀ e ∈ searchNameCluster twinsWorld.entities n (some "c"),
          e.eid ∈ twinsOut.adds)) := by
  have h1 : buildObjsNames twinsWorld.entities (some "c") twinsWorld.assigned [] =
      some [] := by decide
  have h2 : syncAssignments twinsWorld (some ["x"]) (some "c") false = some twinsOut := by
    decide
  exact ⟨⟨h1, h2⟩, c7_amended_all_matches h1 h2⟩

def exOns : List (String × List String) := [("vm2", ["id2"]), ("vm3", ["id3"])]

/-- Witness for C10: the unresolvable desired name "ghost" leaves the run
identical to the run without it. -/
theorem c10_witness :
    (buildObjsNames exWorld.entities (some "mycluster") exWorld.assigned [] = some exOns ∧
      hasKey exOns "ghost" = false ∧
      searchNameCluster exWorld.entities "ghost" (some "mycluster") = []) ∧
    syncAssignments exWorld (some (["vm1"] ++ "ghost" :: ["vm2"])) (some "mycluster") false =
      syncAssignments exWorld (some (["vm1"] ++ ["vm2"])) (some "mycluster") false := by
  have h1 : buildObjsNames exWorld.entities (some "mycluster") exWorld.assigned [] =
      some exOns := by decide
  have h2 : hasKey exOns "ghost" = false := by decide
  have h3 : searchNameCluster exWorld.entities "ghost" (some "mycluster") = [] := by decide
  exact ⟨⟨h1, h2, h3⟩, c10_unresolvable_name_skipped ["vm1"] ["vm2"] false h1 h2 h3⟩

end AffinityLabels
